import Mathlib

/-!
# Verification of the adk-rust Agent Execution Core claims

Shallow embedding of the parts of the `adk-rust` repository that the claims
C1–C10 are about, together with theorems settling each claim.

Sources embedded here (paths relative to the repository root):
* `adk-spatial-os/src/safety/risk.rs` — risk tiers and the prompt classifier.
* `adk-spatial-os/src/safety/{approvals,audit}.rs` — approval and audit records.
* `adk-spatial-os/src/app_runtime/handoff.rs` — handoff parsing and evaluation.
* `adk-spatial-os/src/protocol.rs` — SSE payloads and inbound events.
* `adk-spatial-os/src/session.rs` (and the structurally identical
  `adk-3d-ui/src/session.rs`) — per-session publish sequencing and the
  bounded inbound-event history.
* `adk-spatial-os/src/server.rs` — the `master_prompt` and `inbound_event`
  handlers, embedded as pure state-transition functions.
* `adk-tool/src/mcp/toolset.rs` — `sanitize_schema` and the MCP tool listing.
* `adk-guardrail/src/schema.rs` — the JSON-schema guardrail validator.
* `adk-realtime/src/audio.rs` — PCM16 sample/byte conversions.
* the Gemini `FinishReason` ingress decoding (its defining module is not under
  the provided sources; it is modelled from the spec, see below).

Effects are made explicit: UUID generation, timestamps, the LLM routing call
and command execution are inputs to the embedded functions, and the broadcast
channel is modelled as the list of envelopes handed to it.
-/

namespace Adk

/-! ## Risk tiers and the prompt risk classifier
(`adk-spatial-os/src/safety/risk.rs`) -/

/-- `RiskTier` from `safety/risk.rs`. -/
inductive RiskTier where
  | Safe
  | Controlled
  | Dangerous
deriving DecidableEq, Repr

/-- `risk_rank` from `safety/risk.rs`. -/
def risk_rank : RiskTier → Nat
  | .Safe => 0
  | .Controlled => 1
  | .Dangerous => 2

/-- `max_risk` from `safety/risk.rs`. -/
def max_risk (left right : RiskTier) : RiskTier :=
  if risk_rank left ≥ risk_rank right then left else right

/-- Rust `str::contains` (substring containment), on the underlying
character lists. -/
def strContains (haystack needle : String) : Bool :=
  decide (needle.data <:+: haystack.data)

/-- Rust `str::to_lowercase`, on the underlying character list. (Lean's
`Char.toLower` lowercases the basic latin letters; Rust lowercases full
Unicode. They agree on every string appearing in this development, and the
keyword-characterization theorems lowercase both sides with the same
function, so the choice does not affect them.) -/
def strToLower (s : String) : String :=
  ⟨s.data.map Char.toLower⟩

/-- Rust `char::is_whitespace`, restricted to the ASCII whitespace actually
appearing in this development. -/
def rustIsWs (c : Char) : Bool :=
  c.isWhitespace

/-- Rust `str::trim`: strip whitespace from both ends. -/
def strTrim (s : String) : String :=
  ⟨((s.data.dropWhile rustIsWs).reverse.dropWhile rustIsWs).reverse⟩

/-- Drop the first `n` characters (Rust slicing `&s[n..]` on ASCII text). -/
def strDropChars (s : String) (n : Nat) : String :=
  ⟨s.data.drop n⟩

/-- Rust `str::starts_with`. -/
def strStartsWith (s pre : String) : Bool :=
  pre.data.isPrefixOf s.data

/-- Rust `str::is_empty`. -/
def strIsEmpty (s : String) : Bool :=
  s.data.isEmpty

/-- The dangerous-term table of `classify_prompt_risk`. -/
def dangerous_terms : List String :=
  ["rollback", "restart", "shutdown", "terminate", "delete", "drop", "wipe",
   "scale down", "revoke"]

/-- The controlled-term table of `classify_prompt_risk`. -/
def controlled_terms : List String :=
  ["create", "update", "send", "approve", "schedule", "handoff", "trigger"]

/-- `classify_prompt_risk` from `safety/risk.rs`: lowercase the prompt, return
`Dangerous` on any dangerous term, else `Controlled` on any controlled term,
else `Safe`. -/
def classify_prompt_risk (prompt : String) : RiskTier :=
  let normalized := strToLower prompt
  if dangerous_terms.any (fun term => strContains normalized term) then
    .Dangerous
  else if controlled_terms.any (fun term => strContains normalized term) then
    .Controlled
  else
    .Safe

/-! ## Per-session publish sequencing
(`SessionManager::publish` in `adk-spatial-os/src/session.rs` and
`adk-3d-ui/src/session.rs`; both have the same sequencing logic) -/

/-- `SseEnvelope` from `protocol.rs`, generic in the payload as in the source. -/
structure SseEnvelope (α : Type) where
  v : String
  seq : Nat
  session : String
  ts : String
  payload : α
deriving Repr

/-- `SseEnvelope::new`: fixes the version tag `"v0"`; the timestamp is an
explicit input standing for `Utc::now()`. -/
def SseEnvelope.new (seq : Nat) (session ts : String) (payload : α) :
    SseEnvelope α :=
  { v := "v0", seq := seq, session := session, ts := ts, payload := payload }

/-- The per-session publishing state: the `server_seq` atomic counter and the
sequence of envelopes handed to the broadcast channel so far. -/
structure SessionPubState (α : Type) where
  server_seq : Nat
  published : List (SseEnvelope α)

/-- The state of a freshly created session (`SessionState::new`):
counter `0`, nothing published. -/
def SessionPubState.init : SessionPubState α :=
  { server_seq := 0, published := [] }

/-- `SessionManager::publish`: `fetch_add(1) + 1` assigns sequence number
`old + 1`, wraps the payload in an envelope and sends it. Serialization of
these payload types cannot fail, so the send is modelled as appending the
envelope. Returns the updated state and the assigned seq. -/
def publish (session ts : String) (st : SessionPubState α) (payload : α) :
    SessionPubState α × Nat :=
  let seq := st.server_seq + 1
  ({ server_seq := seq,
     published := st.published ++ [SseEnvelope.new seq session ts payload] },
   seq)

/-- `SessionManager::last_server_seq`. -/
def last_server_seq (st : SessionPubState α) : Nat :=
  st.server_seq

/-- A sequence of `publish` calls on one session, each with its own
timestamp. -/
def publishAll (session : String) (st : SessionPubState α)
    (ps : List (String × α)) : SessionPubState α :=
  ps.foldl (fun acc p => (publish session p.1 acc p.2).1) st

/-! ## Bounded inbound-event history
(`SessionManager::record_event` in `adk-spatial-os/src/session.rs` and
`adk-3d-ui/src/session.rs`) -/

/-- `MAX_EVENT_HISTORY` (spatial-os) = `MAX_STORED_EVENTS` (3d-ui). -/
def MAX_EVENT_HISTORY : Nat := 128

/-- `SessionManager::record_event`: push the event, then drain the oldest
entries so that at most `MAX_EVENT_HISTORY` remain. -/
def record_event (events : List ε) (event : ε) : List ε :=
  let events' := events ++ [event]
  if MAX_EVENT_HISTORY < events'.length then
    events'.drop (events'.length - MAX_EVENT_HISTORY)
  else
    events'

/-- The stored history after recording a whole arrival sequence into a fresh
session. -/
def record_all (arrivals : List ε) : List ε :=
  arrivals.foldl record_event []

/-! ## PCM16 audio conversions (`adk-realtime/src/audio.rs`) -/

/-- `AudioEncoding` from `audio.rs`. -/
inductive AudioEncoding where
  | Pcm16
  | G711Ulaw
  | G711Alaw
deriving DecidableEq, Repr

/-- `AudioFormat` from `audio.rs` (numeric fields as mathematical naturals). -/
structure AudioFormat where
  sample_rate : Nat
  channels : Nat
  bits_per_sample : Nat
  encoding : AudioEncoding
deriving DecidableEq, Repr

/-- `AudioFormat::pcm16_24khz`. -/
def AudioFormat.pcm16_24khz : AudioFormat :=
  { sample_rate := 24000, channels := 1, bits_per_sample := 16,
    encoding := .Pcm16 }

/-- An `AudioChunk`: raw bytes (`Vec<u8>` as a list of values `< 256`) plus
the format. -/
structure AudioChunk where
  data : List (Fin 256)
  format : AudioFormat

/-- `i16::to_le_bytes` on the two's-complement encoding of a sample:
`s % 2^16` is the `u16` reinterpretation, its low and high bytes follow.
(The high byte is below 256 because `s % 2^16 < 2^16`; the outer `% 256`
only certifies the byte bound.) -/
def i16_to_le_bytes (s : Int) : List (Fin 256) :=
  let n := (s % 65536).toNat
  [⟨n % 256, Nat.mod_lt _ (by norm_num)⟩,
   ⟨n / 256 % 256, Nat.mod_lt _ (by norm_num)⟩]

/-- `AudioChunk::from_i16_samples`: concatenate each sample's little-endian
byte pair. -/
def from_i16_samples (samples : List Int) (format : AudioFormat) : AudioChunk :=
  { data := (samples.map i16_to_le_bytes).flatten, format := format }

/-- `i16::from_le_bytes [b0, b1]`: reassemble the `u16` and reinterpret in
two's complement. -/
def i16_from_le_bytes (b0 b1 : Fin 256) : Int :=
  let m : Nat := b0.val + 256 * b1.val
  if m < 32768 then (m : Int) else (m : Int) - 65536

/-- `chunks_exact(2)` decoding loop of `to_i16_samples`. -/
def decode_le_pairs : List (Fin 256) → List Int
  | b0 :: b1 :: rest => i16_from_le_bytes b0 b1 :: decode_le_pairs rest
  | _ => []

/-- `AudioChunk::to_i16_samples`: error on odd byte length, else decode
consecutive little-endian pairs. -/
def to_i16_samples (c : AudioChunk) : Except String (List Int) :=
  if c.data.length % 2 ≠ 0 then
    .error ("Invalid data length for PCM16: " ++ toString c.data.length ++
      " (must be even)")
  else
    .ok (decode_le_pairs c.data)

/-! ## JSON values (`serde_json::Value`)

Numbers are restricted to integers: no claim involves floating-point JSON
numbers, and every concrete JSON value appearing in this development is
integer-valued. -/

/-- A JSON value (`serde_json::Value`, with integer numbers). -/
inductive Json where
  | null
  | bool (b : Bool)
  | num (n : Int)
  | str (s : String)
  | arr (elems : List Json)
  | obj (members : List (String × Json))

/-! A small total JSON parser standing for `serde_json::from_str::<Value>`:
whitespace per RFC 8259, strings with the single-character escapes, integer
numbers without leading zeros. Fractional/exponent numbers and `\u` escapes
are rejected rather than parsed; no input used in any theorem below contains
them. Recursion is on an explicit fuel, which the top-level entry point
makes large enough for any input. -/

/-- JSON insignificant whitespace. -/
def jsonIsWs (c : Char) : Bool :=
  c = ' ' ∨ c = '\n' ∨ c = '\t' ∨ c = '\r'

/-- Drop leading JSON whitespace. -/
def jsonSkipWs : List Char → List Char
  | c :: cs => if jsonIsWs c then jsonSkipWs cs else c :: cs
  | [] => []

/-- Read a string body after the opening quote, handling the one-character
escapes; rejects raw control characters and `\u` escapes. -/
def jsonStringBody : List Char → List Char → Option (String × List Char)
  | '"' :: rest, acc => some (⟨acc.reverse⟩, rest)
  | '\\' :: e :: rest, acc =>
    match e with
    | '"' => jsonStringBody rest ('"' :: acc)
    | '\\' => jsonStringBody rest ('\\' :: acc)
    | '/' => jsonStringBody rest ('/' :: acc)
    | 'n' => jsonStringBody rest ('\n' :: acc)
    | 't' => jsonStringBody rest ('\t' :: acc)
    | 'r' => jsonStringBody rest ('\r' :: acc)
    | 'b' => jsonStringBody rest (Char.ofNat 8 :: acc)
    | 'f' => jsonStringBody rest (Char.ofNat 12 :: acc)
    | _ => none
  | c :: rest, acc =>
    if c.toNat < 32 then none else jsonStringBody rest (c :: acc)
  | [], _ => none

/-- Digits to the natural number they denote. -/
def jsonDigitsVal (ds : List Char) : Nat :=
  ds.foldl (fun acc c => acc * 10 + (c.toNat - 48)) 0

/-- Read an integer JSON number; rejects leading zeros and any fractional or
exponent part. -/
def jsonNumber (cs : List Char) : Option (Json × List Char) :=
  let (neg, cs1) := match cs with
    | '-' :: r => (true, r)
    | _ => (false, cs)
  let ds := cs1.takeWhile Char.isDigit
  let rest := cs1.dropWhile Char.isDigit
  if ds.isEmpty then none
  else if 1 < ds.length ∧ ds.head? = some '0' then none
  else if (rest.head?.elim false fun c => c = '.' ∨ c = 'e' ∨ c = 'E') then none
  else
    let v : Int := jsonDigitsVal ds
    some (.num (if neg then -v else v), rest)

mutual

/-- Read one JSON value. -/
def jsonValue : Nat → List Char → Option (Json × List Char)
  | 0, _ => none
  | fuel + 1, cs =>
    match jsonSkipWs cs with
    | 'n' :: 'u' :: 'l' :: 'l' :: rest => some (.null, rest)
    | 't' :: 'r' :: 'u' :: 'e' :: rest => some (.bool true, rest)
    | 'f' :: 'a' :: 'l' :: 's' :: 'e' :: rest => some (.bool false, rest)
    | '"' :: rest => (jsonStringBody rest []).map fun p => (.str p.1, p.2)
    | '[' :: rest =>
      match jsonSkipWs rest with
      | ']' :: r2 => some (.arr [], r2)
      | r2 => jsonElems fuel r2
    | '{' :: rest =>
      match jsonSkipWs rest with
      | '}' :: r2 => some (.obj [], r2)
      | r2 => jsonMembers fuel r2
    | c :: rest =>
      if c = '-' ∨ c.isDigit then jsonNumber (c :: rest) else none
    | [] => none

/-- Read the elements of a non-empty array, after the opening bracket. -/
def jsonElems : Nat → List Char → Option (Json × List Char)
  | 0, _ => none
  | fuel + 1, cs =>
    match jsonValue fuel cs with
    | none => none
    | some (v, r) =>
      match jsonSkipWs r with
      | ',' :: r2 =>
        match jsonElems fuel r2 with
        | some (.arr vs, r3) => some (.arr (v :: vs), r3)
        | _ => none
      | ']' :: r2 => some (.arr [v], r2)
      | _ => none

/-- Read the members of a non-empty object, after the opening brace. -/
def jsonMembers : Nat → List Char → Option (Json × List Char)
  | 0, _ => none
  | fuel + 1, cs =>
    match jsonSkipWs cs with
    | '"' :: rest =>
      match jsonStringBody rest [] with
      | none => none
      | some (k, r) =>
        match jsonSkipWs r with
        | ':' :: r2 =>
          match jsonValue fuel r2 with
          | none => none
          | some (v, r3) =>
            match jsonSkipWs r3 with
            | ',' :: r4 =>
              match jsonMembers fuel r4 with
              | some (.obj ms, r5) => some (.obj ((k, v) :: ms), r5)
              | _ => none
            | '}' :: r4 => some (.obj [(k, v)], r4)
            | _ => none
        | _ => none
    | _ => none

end

/-- `serde_json::from_str::<Value>`: parse one value and require only
whitespace to follow. -/
def jsonParse (s : String) : Option Json :=
  match jsonValue (2 * s.length + 4) s.data with
  | some (j, rest) => if jsonSkipWs rest = [] then some j else none
  | none => none

/-! ## MCP schema sanitization (`adk-tool/src/mcp/toolset.rs`) -/

/-- The keys `sanitize_schema` removes. -/
def bannedSchemaKeys : List String :=
  ["$schema", "definitions", "$ref", "additionalProperties"]

mutual

/-- `sanitize_schema`: on an object, remove the banned keys, then sanitize the
remaining values; on an array, sanitize every element; leave scalars alone. -/
def sanitize_schema : Json → Json
  | .obj members => .obj (sanitizeMembers members)
  | .arr elems => .arr (sanitizeElems elems)
  | v => v

/-- Element-wise sanitization of an array's contents. -/
def sanitizeElems : List Json → List Json
  | [] => []
  | j :: js => sanitize_schema j :: sanitizeElems js

/-- Member-wise sanitization of an object's contents: drop banned keys,
recurse into the values of the rest. -/
def sanitizeMembers : List (String × Json) → List (String × Json)
  | [] => []
  | (k, v) :: ms =>
    if bannedSchemaKeys.contains k then sanitizeMembers ms
    else (k, sanitize_schema v) :: sanitizeMembers ms

end

mutual

/-- No object at any depth of this value holds a banned schema key. -/
def schemaClean : Json → Bool
  | .obj members => schemaCleanMembers members
  | .arr elems => schemaCleanElems elems
  | _ => true

/-- `schemaClean` over an array's elements. -/
def schemaCleanElems : List Json → Bool
  | [] => true
  | j :: js => schemaClean j && schemaCleanElems js

/-- `schemaClean` over an object's members. -/
def schemaCleanMembers : List (String × Json) → Bool
  | [] => true
  | (k, v) :: ms =>
    !bannedSchemaKeys.contains k && schemaClean v && schemaCleanMembers ms

end

/-- An MCP tool as listed by the server (the fields of `rmcp::model::Tool`
that `McpToolset::tools` reads): name, optional description, input schema
object, optional output schema object. -/
structure McpServerTool where
  name : String
  description : Option String
  input_schema : List (String × Json)
  output_schema : Option (List (String × Json))

/-- The data fields of the ADK-side `McpTool` built by `McpToolset::tools`
(the live client handle and task configuration carry no schema data and are
omitted). -/
structure McpTool where
  name : String
  description : String
  input_schema : Option Json
  output_schema : Option Json
  is_long_running : Bool

/-- `McpToolset::tools`: list the server's tools, apply the optional name
filter, and convert each, sanitizing the input schema and (when present) the
output schema. -/
def McpToolset.tools (tool_filter : Option (String → Bool))
    (mcp_tools : List McpServerTool) : List McpTool :=
  mcp_tools.filterMap fun mcp_tool =>
    if tool_filter.elim true fun filter => filter mcp_tool.name then
      some { name := mcp_tool.name,
             description := mcp_tool.description.getD "",
             input_schema := some (sanitize_schema (.obj mcp_tool.input_schema)),
             output_schema :=
               mcp_tool.output_schema.map fun s => sanitize_schema (.obj s),
             is_long_running := false }
    else none

/-! ## Guardrail schema validator (`adk-guardrail/src/schema.rs`)

`Content` and `Part` are declared in the `adk-core` crate, which is not among
the provided sources; they are modelled from the spec (§3 Data model): a
`Content` is a role plus an ordered list of tagged `Part`s. The severity
type and `GuardrailResult` are declared in the missing `adk-guardrail`
root module; `GuardrailResult` is modelled from the spec (§4.4:
`Pass | Fail{reason, severity} | Modified(Content)`), generic in the
severity type, which no claim inspects. -/

/-- Modelled from the spec: `Part` of the Content model (§3). -/
inductive Part where
  | text (text : String)
  | inlineData (mime : String) (bytes : List Nat)
  | functionCall (name : String) (args : Json)
  | functionResponse (name : String) (response : Json)
  | fileRef (uri : String) (mime : String)

/-- Modelled from the spec: `Content` of the Content model (§3). -/
structure Content where
  role : String
  parts : List Part

/-- Modelled from the spec: a guardrail's verdict (§4.4), generic in the
severity type. -/
inductive GuardrailResult (σ : Type) where
  | Pass
  | Fail (reason : String) (severity : σ)
  | Modified (content : Content)

/-- First index at which `needle` occurs in `hay` (Rust `str::find` for a
string pattern). -/
def subIndex : List Char → List Char → Option Nat
  | hay, needle =>
    if needle.isPrefixOf hay then some 0
    else
      match hay with
      | [] => none
      | _ :: tl => (subIndex tl needle).map (· + 1)

/-- The fence markers `extract_json_from_markdown` searches for, in order. -/
def start_markers : List String :=
  ["```json\n", "```json\r\n", "```\n", "```\r\n"]

/-- `SchemaValidator::extract_json_from_markdown`: for each start marker in
order, if the text contains the marker and, after it, the closing fence,
return the trimmed text in between; otherwise try the next marker. -/
def extract_json_from_markdown (text : String) : Option String :=
  let hay := text.data
  start_markers.findSome? fun start =>
    match subIndex hay start.data with
    | none => none
    | some start_idx =>
      let content := hay.drop (start_idx + start.data.length)
      match subIndex content "```".data with
      | none => none
      | some end_idx => some (strTrim (String.mk (content.take end_idx)))

/-- The JSON a single part yields inside `SchemaValidator::extract_json`:
for a text part, try the direct parse, then the markdown extraction; other
parts yield nothing. The parse function stands for
`serde_json::from_str::<Value>` (instantiated with `jsonParse` in concrete
statements). -/
def partExtractJson (parse : String → Option Json) : Part → Option Json
  | .text t =>
    match parse t with
    | some json => some json
    | none => (extract_json_from_markdown t).bind parse
  | _ => none

/-- `SchemaValidator::extract_json`: the first part that yields a JSON
value. -/
def extract_json (parse : String → Option Json) (content : Content) :
    Option Json :=
  content.parts.findSome? (partExtractJson parse)

/-- The configuration of a `SchemaValidator`: its name, the compiled
`jsonschema::Validator` (abstracted as the function returning `none` on a
valid instance and the first error rendered as a string otherwise), and the
configured severity. -/
structure SchemaValidator (σ : Type) where
  name : String
  validator : Json → Option String
  severity : σ

/-- `SchemaValidator::validate`: extract JSON from the content (fail if none
can be extracted), then validate it against the schema. -/
def SchemaValidator.validate (v : SchemaValidator σ)
    (parse : String → Option Json) (content : Content) : GuardrailResult σ :=
  match extract_json parse content with
  | none => .Fail "Content does not contain valid JSON" v.severity
  | some json =>
    match v.validator json with
    | some error => .Fail ("Schema validation failed: " ++ error) v.severity
    | none => .Pass

/-! ## Gemini finish reasons -/

/-- The canonical finish-reason set (spec §4.3). -/
inductive FinishReason where
  | Stop
  | MaxTokens
  | Safety
  | Recitation
  | Other
  | Blocklist
  | ProhibitedContent
  | Spii
  | MalformedFunctionCall
deriving DecidableEq, Repr

/-- A finish reason on the wire: string form, or the numeric enum form some
providers use. -/
inductive FinishReasonIngress where
  | str (s : String)
  | num (n : Int)

/-- Modelled from the spec: the `FinishReason` `Deserialize` implementation
of the `adk-gemini` crate is not among the provided sources (only its tests,
in `adk-gemini/src/response_parsing_tests.rs`). Per the spec (§4.3, §6) the
ingress accepts both the canonical string encoding and the numeric enum
encoding and falls back to `Other` on unknown values; the concrete tables
are the ones the tests pin down. -/
def finish_reason_of_ingress : FinishReasonIngress → FinishReason
  | .str "STOP" => .Stop
  | .str "MAX_TOKENS" => .MaxTokens
  | .str "SAFETY" => .Safety
  | .str "RECITATION" => .Recitation
  | .str "OTHER" => .Other
  | .str "BLOCKLIST" => .Blocklist
  | .str "PROHIBITED_CONTENT" => .ProhibitedContent
  | .str "SPII" => .Spii
  | .str "MALFORMED_FUNCTION_CALL" => .MalformedFunctionCall
  | .str _ => .Other
  | .num 1 => .Stop
  | .num 2 => .MaxTokens
  | .num 3 => .Safety
  | .num 4 => .Recitation
  | .num 5 => .Other
  | .num 6 => .Blocklist
  | .num 7 => .ProhibitedContent
  | .num 8 => .Spii
  | .num 9 => .MalformedFunctionCall
  | .num _ => .Other

/-- The canonical string table. -/
def finish_reason_strings : List (String × FinishReason) :=
  [("STOP", .Stop), ("MAX_TOKENS", .MaxTokens), ("SAFETY", .Safety),
   ("RECITATION", .Recitation), ("OTHER", .Other), ("BLOCKLIST", .Blocklist),
   ("PROHIBITED_CONTENT", .ProhibitedContent), ("SPII", .Spii),
   ("MALFORMED_FUNCTION_CALL", .MalformedFunctionCall)]

/-- The numeric table (codes 1 through 9). -/
def finish_reason_numbers : List (Int × FinishReason) :=
  [(1, .Stop), (2, .MaxTokens), (3, .Safety), (4, .Recitation), (5, .Other),
   (6, .Blocklist), (7, .ProhibitedContent), (8, .Spii),
   (9, .MalformedFunctionCall)]

/-! ## Spatial-OS shell protocol (`adk-spatial-os/src/protocol.rs`,
`safety/approvals.rs`, `safety/audit.rs`, `app_runtime/handoff.rs`) -/

/-- `PendingApproval` from `safety/approvals.rs`. -/
structure PendingApproval where
  action_id : String
  app_id : String
  title : String
  rationale : String
  risk : RiskTier
deriving DecidableEq, Repr

/-- `AuditDecision` from `safety/audit.rs`. -/
inductive AuditDecision where
  | Proposed
  | Approved
  | Rejected
  | Executed
deriving DecidableEq, Repr

/-- `AuditEntry` from `safety/audit.rs`. -/
structure AuditEntry where
  action_id : String
  app_id : String
  risk : RiskTier
  decision : AuditDecision
  ts : String
deriving DecidableEq, Repr

/-- `AuditEntry::new`; the timestamp (`Utc::now()`) is an explicit input. -/
def AuditEntry.new (action_id app_id : String) (risk : RiskTier)
    (decision : AuditDecision) (ts : String) : AuditEntry :=
  { action_id := action_id, app_id := app_id, risk := risk,
    decision := decision, ts := ts }

/-- `HandoffRequest` from `app_runtime/handoff.rs`. -/
structure HandoffRequest where
  from_app : String
  to_app : String
  context_summary : String
deriving DecidableEq, Repr

/-- `HandoffDecision` from `app_runtime/handoff.rs`. -/
structure HandoffDecision where
  allowed : Bool
  reason : String
deriving DecidableEq, Repr

/-- `PendingHandoff` from `app_runtime/handoff.rs`. -/
structure PendingHandoff where
  handoff_id : String
  request : HandoffRequest
deriving DecidableEq, Repr

/-- Rust `str::split_once`: split at the first occurrence of the separator. -/
def splitOnceChar (s : String) (sep : Char) : Option (String × String) :=
  let pre := s.data.takeWhile (· ≠ sep)
  if pre.length = s.data.length then none
  else some (String.mk pre, String.mk (s.data.drop (pre.length + 1)))

/-- `parse_handoff_command` from `app_runtime/handoff.rs`: a command of the
form `handoff <to_app> | <context>` (case-insensitive keyword) becomes a
`HandoffRequest`. -/
def parse_handoff_command (from_app command : String) : Option HandoffRequest :=
  let trimmed := strTrim command
  if ¬ strStartsWith (strToLower trimmed) "handoff " then none
  else
    let rest := strTrim (strDropChars trimmed 8)
    match splitOnceChar rest '|' with
    | none => none
    | some (to_raw, context_raw) =>
      let to_app := strTrim to_raw
      let context_summary := strTrim context_raw
      if strIsEmpty to_app ∨ strIsEmpty context_summary then none
      else
        some { from_app := from_app, to_app := to_app,
               context_summary := context_summary }

/-- `evaluate_handoff` from `app_runtime/handoff.rs`. -/
def evaluate_handoff (request : HandoffRequest) (user_allowed : Bool) :
    HandoffDecision :=
  if ¬ user_allowed then
    { allowed := false, reason := "user rejected handoff request" }
  else if request.from_app = request.to_app then
    { allowed := true, reason := "intra-app handoff allowed" }
  else
    { allowed := true, reason := "user-governed cross-app handoff" }

/-- `AppSurfaceLayout` from `session.rs` (i32 fields as integers). -/
structure AppSurfaceLayout where
  x : Int
  y : Int
  w : Int
  h : Int
  z_index : Int
deriving DecidableEq, Repr

/-- `WorkspaceSurfaceSnapshot` from `server.rs`. -/
structure WorkspaceSurfaceSnapshot where
  app_id : String
  x : Int
  y : Int
  w : Int
  h : Int
  z_index : Int
deriving DecidableEq, Repr

/-- Look up a member of a JSON object (first occurrence). -/
def jsonLookup (members : List (String × Json)) (k : String) : Option Json :=
  (members.find? fun kv => kv.1 = k).map (·.2)

/-- Decode a JSON value as a string. -/
def jsonAsString : Option Json → Option String
  | some (.str s) => some s
  | _ => none

/-- Decode a JSON value as an `i32`. -/
def jsonAsInt32 : Option Json → Option Int
  | some (.num n) => if -2147483648 ≤ n ∧ n < 2147483648 then some n else none
  | _ => none

/-- serde decoding of one `WorkspaceSurfaceSnapshot` (unknown members are
ignored, missing or mistyped ones fail). -/
def decodeWorkspaceSnapshot : Json → Option WorkspaceSurfaceSnapshot
  | .obj ms => do
    let app_id ← jsonAsString (jsonLookup ms "app_id")
    let x ← jsonAsInt32 (jsonLookup ms "x")
    let y ← jsonAsInt32 (jsonLookup ms "y")
    let w ← jsonAsInt32 (jsonLookup ms "w")
    let h ← jsonAsInt32 (jsonLookup ms "h")
    let z_index ← jsonAsInt32 (jsonLookup ms "z_index")
    pure { app_id := app_id, x := x, y := y, w := w, h := h,
           z_index := z_index }
  | _ => none

/-- Insert-or-overwrite into the workspace-layout map (`HashMap::insert`,
modelled on an association list). -/
def layoutInsert (m : List (String × AppSurfaceLayout)) (k : String)
    (v : AppSurfaceLayout) : List (String × AppSurfaceLayout) :=
  if m.any fun kv => kv.1 = k then
    m.map fun kv => if kv.1 = k then (k, v) else kv
  else m ++ [(k, v)]

/-- `parse_workspace_layout` from `server.rs`: deserialize a snapshot list
and map it by app id, skipping entries with a blank app id. -/
def parse_workspace_layout (layout : String) :
    Option (List (String × AppSurfaceLayout)) :=
  match jsonParse layout with
  | some (.arr items) =>
    (items.mapM decodeWorkspaceSnapshot).map fun snaps =>
      snaps.foldl
        (fun m item =>
          if strIsEmpty (strTrim item.app_id) then m
          else layoutInsert m item.app_id
            { x := item.x, y := item.y, w := item.w, h := item.h,
              z_index := item.z_index })
        []
  | _ => none

/-- `ShellStatePayload` from `protocol.rs`. -/
structure ShellStatePayload where
  focused_app : Option String
  active_apps : List String
  last_prompt : Option String
deriving DecidableEq, Repr

/-- `AppSurfaceOpsPayload`, modelled by the inputs the compositor renders
from (the selected apps and the saved workspace layout): no claim inspects
the rendered surface ops, and the snapshotted compositor source disagrees
with its call sites about an extra app-catalog argument. -/
structure AppSurfaceOpsPayload where
  selected_apps : List String
  workspace_layout : List (String × AppSurfaceLayout)
deriving DecidableEq, Repr

/-- `TimelineEntryPayload` from `protocol.rs` (`fields` is a JSON object). -/
structure TimelineEntryPayload where
  level : String
  message : String
  fields : List (String × Json)

/-- `ApprovalRequiredPayload` from `protocol.rs`. -/
structure ApprovalRequiredPayload where
  action_id : String
  app_id : String
  title : String
  rationale : String
  risk : RiskTier
deriving DecidableEq, Repr

/-- `NotificationPayload` from `protocol.rs`. -/
structure NotificationPayload where
  level : String
  message : String
deriving DecidableEq, Repr

/-- `ErrorPayload` from `protocol.rs`. -/
structure ErrorPayload where
  code : String
  message : String
deriving DecidableEq, Repr

/-- `DonePayload` from `protocol.rs`. -/
structure DonePayload where
  status : String
deriving DecidableEq, Repr

/-- `PingPayload` from `protocol.rs`. -/
structure PingPayload where
  ts : String
deriving DecidableEq, Repr

/-- `SsePayload` from `protocol.rs`. -/
inductive SsePayload where
  | ShellState (p : ShellStatePayload)
  | AppSurfaceOps (p : AppSurfaceOpsPayload)
  | TimelineEntry (p : TimelineEntryPayload)
  | ApprovalRequired (p : ApprovalRequiredPayload)
  | Notification (p : NotificationPayload)
  | Error (p : ErrorPayload)
  | Done (p : DonePayload)
  | Ping (p : PingPayload)

/-- `SsePayload::event_name`. -/
def SsePayload.event_name : SsePayload → String
  | .ShellState _ => "shell_state"
  | .AppSurfaceOps _ => "app_surface_ops"
  | .TimelineEntry _ => "timeline_entry"
  | .ApprovalRequired _ => "approval_required"
  | .Notification _ => "notification"
  | .Error _ => "error"
  | .Done _ => "done"
  | .Ping _ => "ping"

/-- `InboundEvent` from `protocol.rs`. -/
inductive InboundEvent where
  | MasterPromptSubmit (prompt : String)
  | AppFocus (app_id : String)
  | AppCommand (app_id command : String)
  | ApprovalDecision (action_id : String) (approved : Bool)
  | WorkspaceLayoutChange (layout : String)

/-- `InboundEventRequest` from `protocol.rs`. -/
structure InboundEventRequest where
  seq : Nat
  event : InboundEvent

/-! ### Timeline and shell-state builders (`shell/timeline.rs`,
`shell/compositor.rs`) -/

/-- `compositor::shell_state`. -/
def shell_state (selected_apps : List String) (focused_app : Option String)
    (last_prompt : Option String) : ShellStatePayload :=
  { focused_app := focused_app, active_apps := selected_apps,
    last_prompt := last_prompt }

/-- `compositor::timeline_info`. -/
def timeline_info (message : String) : TimelineEntryPayload :=
  { level := "info", message := message, fields := [] }

/-- `timeline::route_entry`. -/
def route_entry (prompt : String) (selected_apps : List String)
    (rationale : String) : TimelineEntryPayload :=
  { level := "info", message := "Master Prompt routed to app set",
    fields := [("prompt", .str prompt),
               ("selected_apps", .arr (selected_apps.map .str)),
               ("rationale", .str rationale)] }

/-- `timeline::approval_entry`. -/
def approval_entry (action_id : String) (approved : Bool) :
    TimelineEntryPayload :=
  { level := if approved then "success" else "warn",
    message := if approved then "User approved pending action"
               else "User rejected pending action",
    fields := [("action_id", .str action_id), ("approved", .bool approved)] }

/-- `timeline::workspace_layout_entry`. -/
def workspace_layout_entry (layout : String) : TimelineEntryPayload :=
  let parsed := (jsonParse layout).getD (.str layout)
  let surface_count := match parsed with
    | .arr items => items.length
    | _ => 0
  { level := "info",
    message := "Workspace layout updated (" ++ toString surface_count ++
      " surfaces)",
    fields := [("surface_count", .num surface_count), ("layout", parsed)] }

/-- `timeline::app_command_entry`. -/
def app_command_entry (app_id command : String) (accepted : Bool)
    (summary : String) : TimelineEntryPayload :=
  { level := if accepted then "info" else "warn",
    message := "Command dispatched to " ++ app_id,
    fields := [("app_id", .str app_id), ("command", .str command),
               ("accepted", .bool accepted), ("summary", .str summary)] }

/-- `timeline::handoff_requested_entry`. -/
def handoff_requested_entry (from_app to_app context_summary handoff_id :
    String) : TimelineEntryPayload :=
  { level := "warn",
    message := "Handoff requested: " ++ from_app ++ " -> " ++ to_app,
    fields := [("handoff_id", .str handoff_id), ("from_app", .str from_app),
               ("to_app", .str to_app),
               ("context_summary", .str context_summary)] }

/-- `timeline::handoff_decision_entry`. -/
def handoff_decision_entry (handoff_id from_app to_app : String)
    (allowed : Bool) (reason : String) : TimelineEntryPayload :=
  { level := if allowed then "success" else "warn",
    message := if allowed then "Handoff approved: " ++ from_app ++ " -> " ++ to_app
               else "Handoff denied: " ++ from_app ++ " -> " ++ to_app,
    fields := [("handoff_id", .str handoff_id), ("from_app", .str from_app),
               ("to_app", .str to_app), ("allowed", .bool allowed),
               ("reason", .str reason)] }

/-! ### Session context and the server handlers (`session.rs`, `server.rs`,
`shell/orchestrator.rs`) -/

/-- `ShellSessionContext` from `session.rs`. -/
structure ShellSessionContext where
  focused_app : Option String := none
  active_apps : List String := []
  last_prompt : Option String := none
  workspace_layout : List (String × AppSurfaceLayout) := []
  pending_approval : Option PendingApproval := none
  pending_handoff : Option PendingHandoff := none
  audit_log : List AuditEntry := []
deriving DecidableEq, Repr

/-- `ShellSessionContext::default()`. -/
def ShellSessionContext.initial : ShellSessionContext := {}

/-- `IntentRoute` from `app_runtime/host.rs`. -/
structure IntentRoute where
  selected_apps : List String
  risk : RiskTier
  rationale : String

/-- `MasterPlan` from `shell/orchestrator.rs`. -/
structure MasterPlan where
  prompt : String
  selected_apps : List String
  risk : RiskTier
  rationale : String

/-- `CommandDispatch` from `app_runtime/host.rs`. -/
structure CommandDispatch where
  accepted : Bool
  summary : String

/-- `orchestrator::build_master_plan`, with `AgentAppHost::route_prompt`
supplied as a function (it consults an LLM or manifest similarity). -/
def build_master_plan (route : String → IntentRoute) (prompt : String) :
    MasterPlan :=
  let routed := route prompt
  { prompt := prompt, selected_apps := routed.selected_apps,
    risk := routed.risk, rationale := routed.rationale }

/-- The effectful inputs of one request handled by the server: the routing
function, command execution, a fresh UUID rendering, and the current
timestamp. -/
structure StepEnv where
  route : String → IntentRoute
  exec : String → String → CommandDispatch
  freshId : String
  ts : String

/-- The `master_prompt` handler from `server.rs`, as a function from the
session context to the updated context plus the list of payloads published,
in order. Returns `none` for a blank prompt (the handler rejects it with
`400` and publishes nothing). -/
def master_prompt (env : StepEnv) (ctx : ShellSessionContext)
    (rawPrompt : String) : Option (ShellSessionContext × List SsePayload) :=
  let prompt := strTrim rawPrompt
  if strIsEmpty prompt then none
  else
    let existing_layout := ctx.workspace_layout
    let plan := build_master_plan env.route prompt
    let focused_app := plan.selected_apps.head?
    let ctx1 := { ctx with
      last_prompt := some plan.prompt,
      active_apps := plan.selected_apps,
      focused_app := focused_app,
      pending_approval := none,
      pending_handoff := none }
    let base : List SsePayload :=
      [.ShellState (shell_state plan.selected_apps focused_app
          (some plan.prompt)),
       .TimelineEntry (route_entry plan.prompt plan.selected_apps
          plan.rationale),
       .AppSurfaceOps { selected_apps := plan.selected_apps,
                        workspace_layout := existing_layout }]
    if plan.risk = .Dangerous then
      let app_id := focused_app.getD "ops-center"
      let pending : PendingApproval :=
        { action_id := "approval-" ++ env.freshId,
          app_id := app_id,
          title := "Dangerous action requires approval",
          rationale := "Master Prompt implies high-impact operation.",
          risk := plan.risk }
      let ctx2 := { ctx1 with
        pending_approval := some pending,
        audit_log := ctx1.audit_log ++
          [AuditEntry.new pending.action_id pending.app_id pending.risk
            .Proposed env.ts] }
      some (ctx2, base ++
        [.ApprovalRequired
          { action_id := pending.action_id, app_id := pending.app_id,
            title := pending.title, rationale := pending.rationale,
            risk := pending.risk }])
    else
      some (ctx1, base ++ [.Done { status := "completed" }])

/-- The handoff-resolution arm of the `ApprovalDecision` branch of
`inbound_event` (taken when the decision's action id matches the pending
handoff). -/
def handoff_resolve (env : StepEnv) (ctx : ShellSessionContext)
    (pending_handoff : PendingHandoff) (approved : Bool) :
    ShellSessionContext × List SsePayload :=
  let decision := evaluate_handoff pending_handoff.request approved
  let next_active :=
    if decision.allowed then
      if ctx.active_apps.any (· = pending_handoff.request.to_app) then
        ctx.active_apps
      else ctx.active_apps ++ [pending_handoff.request.to_app]
    else ctx.active_apps
  let next_focus :=
    if decision.allowed then some pending_handoff.request.to_app
    else ctx.focused_app
  let ctx' := { ctx with
    pending_handoff := none,
    pending_approval := none,
    active_apps := next_active,
    focused_app := next_focus,
    audit_log := ctx.audit_log ++
      [AuditEntry.new pending_handoff.handoff_id
        pending_handoff.request.from_app .Controlled
        (if decision.allowed then .Approved else .Rejected) env.ts] }
  (ctx',
   [.TimelineEntry (handoff_decision_entry pending_handoff.handoff_id
      pending_handoff.request.from_app pending_handoff.request.to_app
      decision.allowed decision.reason)] ++
   (if decision.allowed then
      [.ShellState (shell_state ctx'.active_apps ctx'.focused_app
         ctx'.last_prompt),
       .AppSurfaceOps { selected_apps := ctx'.active_apps,
                        workspace_layout := ctx'.workspace_layout }]
    else []) ++
   [.Notification { level := if decision.allowed then "success" else "info",
                    message := decision.reason },
    .Done { status := "handoff_resolved" }])

/-- The rest of the `ApprovalDecision` branch of `inbound_event`, reached
when no pending handoff matches: warn when nothing is pending, report
`approval_mismatch` on a wrong action id, otherwise record the decision and
resolve the approval. -/
def approval_decision_fallback (env : StepEnv) (ctx : ShellSessionContext)
    (action_id : String) (approved : Bool) :
    ShellSessionContext × List SsePayload :=
  match ctx.pending_approval with
  | none =>
    (ctx, [.Notification { level := "warn",
                           message := "No pending approval found" }])
  | some pending =>
    if pending.action_id ≠ action_id then
      (ctx, [.Error { code := "approval_mismatch",
                      message := "Action ID does not match pending approval" }])
    else
      let decision := if approved then AuditDecision.Approved
                      else AuditDecision.Rejected
      ({ ctx with
         audit_log := ctx.audit_log ++
           [AuditEntry.new action_id pending.app_id pending.risk decision
             env.ts],
         pending_approval := none,
         pending_handoff := none },
       [.TimelineEntry (approval_entry action_id approved),
        .Notification
          { level := if approved then "success" else "info",
            message := if approved then
                "Approval accepted. Execution can proceed."
              else "Approval rejected. Action blocked." },
        .Done { status := "approval_resolved" }])

/-- The `inbound_event` handler from `server.rs`, restricted to its effect on
the session context and the payloads it publishes (event recording is
`record_event`, modelled separately). -/
def inbound_step (env : StepEnv) (ctx : ShellSessionContext) :
    InboundEvent → ShellSessionContext × List SsePayload
  | .MasterPromptSubmit prompt =>
    match master_prompt env ctx prompt with
    | some result => result
    | none => (ctx, [])
  | .AppFocus app_id =>
    ({ ctx with focused_app := some app_id },
     [.ShellState (shell_state ctx.active_apps (some app_id) ctx.last_prompt),
      .TimelineEntry (timeline_info ("Focused app: " ++ app_id))])
  | .AppCommand app_id command =>
    match parse_handoff_command app_id command with
    | some handoff =>
      let handoff_id := "handoff-" ++ env.freshId
      let pending_handoff : PendingHandoff :=
        { handoff_id := handoff_id, request := handoff }
      ({ ctx with
         pending_handoff := some pending_handoff,
         pending_approval := some
           { action_id := handoff_id, app_id := handoff.from_app,
             title := "Allow handoff to " ++ handoff.to_app,
             rationale := handoff.context_summary, risk := .Controlled },
         audit_log := ctx.audit_log ++
           [AuditEntry.new handoff_id handoff.from_app .Controlled .Proposed
             env.ts] },
       [.TimelineEntry (handoff_requested_entry handoff.from_app
          handoff.to_app handoff.context_summary handoff_id),
        .ApprovalRequired
          { action_id := handoff_id, app_id := handoff.from_app,
            title := "Cross-app handoff requires approval",
            rationale := "Transfer context to " ++ handoff.to_app ++ ": " ++
              handoff.context_summary,
            risk := .Controlled }])
    | none =>
      let dispatched := env.exec app_id command
      (ctx,
       [.TimelineEntry (app_command_entry app_id command dispatched.accepted
          dispatched.summary),
        .Notification
          { level := if dispatched.accepted then "info" else "warn",
            message := dispatched.summary }])
  | .ApprovalDecision action_id approved =>
    match ctx.pending_handoff with
    | some pending_handoff =>
      if pending_handoff.handoff_id = action_id then
        handoff_resolve env ctx pending_handoff approved
      else approval_decision_fallback env ctx action_id approved
    | none => approval_decision_fallback env ctx action_id approved
  | .WorkspaceLayoutChange layout =>
    let ctx' := match parse_workspace_layout layout with
      | some next_layout => { ctx with workspace_layout := next_layout }
      | none => ctx
    (ctx', [.TimelineEntry (workspace_layout_entry layout)])

/-- A sequence of inbound events processed on one session, each with its own
effectful inputs; returns the final context and all payloads published, in
order. -/
def inbound_trace (ctx : ShellSessionContext)
    (steps : List (StepEnv × InboundEvent)) :
    ShellSessionContext × List SsePayload :=
  match steps with
  | [] => (ctx, [])
  | (env, ev) :: rest =>
    let (ctx', out) := inbound_step env ctx ev
    let (ctx'', outs) := inbound_trace ctx' rest
    (ctx'', out ++ outs)

/-- Whether a payload is an `ApprovalRequired` event. -/
def isApprovalRequired : SsePayload → Bool
  | .ApprovalRequired _ => true
  | _ => false

/-- Whether a payload is a `Done` event. -/
def isDone : SsePayload → Bool
  | .Done _ => true
  | _ => false

/-- The session-context invariant of the shell: whenever a handoff is
pending, the pending approval is the one guarding it (same action id). It
holds in the initial context and is preserved by every inbound step. -/
def HandoffConsistent (ctx : ShellSessionContext) : Prop :=
  ∀ ph, ctx.pending_handoff = some ph →
    ∃ p, ctx.pending_approval = some p ∧ p.action_id = ph.handoff_id

/-- An inbound event that neither abandons nor resolves the pending approval
`p`: focus changes, layout changes, app commands that are not handoff
requests, and approval decisions for a different action id. A new master
prompt or a handoff command supersedes the pending approval (the shell
replaces it), so those are excluded. -/
def NonSuperseding (p : PendingApproval) : InboundEvent → Prop
  | .AppFocus _ => True
  | .WorkspaceLayoutChange _ => True
  | .AppCommand app_id command => parse_handoff_command app_id command = none
  | .ApprovalDecision action_id _ => action_id ≠ p.action_id
  | .MasterPromptSubmit _ => False

/-- The content of the first fenced markdown code block, read off the
claim's words (for comparison with `extract_json_from_markdown`, which
instead prefers a ```` ```json ```` fence anywhere over an earlier plain
fence): take the first ```` ``` ```` fence, skip its info string up to the
end of the line, and return the trimmed text up to the closing fence. -/
def spec_first_fenced_block (text : String) : Option String :=
  let hay := text.data
  match subIndex hay "```".data with
  | none => none
  | some i =>
    let after := hay.drop (i + 3)
    let body := (after.dropWhile (· ≠ '\n')).drop 1
    match subIndex body "```".data with
    | none => none
    | some j => some (strTrim (String.mk (body.take j)))

/-! ## Helper lemmas -/

theorem strContains_iff (haystack needle : String) :
    strContains haystack needle = true ↔ needle.data <:+: haystack.data := by
  simp [strContains]

theorem publish_seq_spec (session : String) (st : SessionPubState α)
    (ps : List (String × α)) :
    (publishAll session st ps).server_seq = st.server_seq + ps.length ∧
    (publishAll session st ps).published.map (·.seq) =
      st.published.map (·.seq) ++ List.range' (st.server_seq + 1) ps.length := by
  induction ps generalizing st with
  | nil => simp [publishAll]
  | cons p rest ih =>
    have hstep :
        publishAll session st (p :: rest) =
          publishAll session (publish session p.1 st p.2).1 rest := by
      simp [publishAll]
    rw [hstep]
    obtain ⟨h1, h2⟩ := ih ((publish session p.1 st p.2).1)
    refine ⟨?_, ?_⟩
    · rw [h1]; simp [publish]; omega
    · rw [h2]
      simp [publish, SseEnvelope.new, List.range'_succ]

theorem record_all_concat (l : List ε) (e : ε) :
    record_all (l ++ [e]) = record_event (record_all l) e := by
  simp [record_all]

theorem decode_pair_encode (s : Int) (h0 : -32768 ≤ s) (h1 : s < 32768)
    (rest : List (Fin 256)) :
    decode_le_pairs (i16_to_le_bytes s ++ rest) = s :: decode_le_pairs rest := by
  have hnn : 0 ≤ s % 65536 := Int.emod_nonneg s (by norm_num)
  have hlt : s % 65536 < 65536 := Int.emod_lt_of_pos s (by norm_num)
  simp only [i16_to_le_bytes, List.cons_append, List.nil_append,
    decode_le_pairs]
  congr 1
  have hcast : (((s % 65536).toNat : Int)) = s % 65536 :=
    Int.toNat_of_nonneg hnn
  have hnlt : (s % 65536).toNat < 65536 := by omega
  have hdiv : (s % 65536).toNat / 256 % 256 = (s % 65536).toNat / 256 :=
    Nat.mod_eq_of_lt (by omega)
  have key : (s % 65536).toNat % 256 + 256 * ((s % 65536).toNat / 256 % 256) =
      (s % 65536).toNat := by
    rw [hdiv]; exact Nat.mod_add_div _ _
  simp only [i16_from_le_bytes, Fin.val_mk, key]
  split_ifs with hsmall
  · omega
  · omega

theorem flatten_encode_length (samples : List Int) :
    ((samples.map i16_to_le_bytes).flatten).length = 2 * samples.length := by
  induction samples with
  | nil => simp
  | cons s rest ih => simp [i16_to_le_bytes, ih]; omega

theorem decode_flatten_encode (samples : List Int)
    (h : ∀ s ∈ samples, -32768 ≤ s ∧ s < 32768) :
    decode_le_pairs ((samples.map i16_to_le_bytes).flatten) = samples := by
  induction samples with
  | nil => simp [decode_le_pairs]
  | cons s rest ih =>
    have hs := h s (List.mem_cons_self s rest)
    simp only [List.map_cons, List.flatten_cons]
    rw [decode_pair_encode s hs.1 hs.2]
    rw [ih fun x hx => h x (List.mem_cons_of_mem s hx)]

/-! ## Claim theorems -/

/-- C2: for every prompt string, `classify_prompt_risk` returns `Dangerous`
iff the lowercased prompt contains one of the declared dangerous keywords,
otherwise `Controlled` iff it contains one of the declared controlled
keywords, otherwise `Safe`; and in particular the prompt
`"rollback prod now"` classifies as `Dangerous`. -/
theorem classify_prompt_risk_keyword_spec :
    (∀ prompt : String,
      (classify_prompt_risk prompt = .Dangerous ↔
        ∃ term ∈ dangerous_terms, term.data <:+: (strToLower prompt).data) ∧
      (classify_prompt_risk prompt = .Controlled ↔
        (¬ (∃ term ∈ dangerous_terms, term.data <:+: (strToLower prompt).data) ∧
          ∃ term ∈ controlled_terms, term.data <:+: (strToLower prompt).data)) ∧
      (classify_prompt_risk prompt = .Safe ↔
        (¬ (∃ term ∈ dangerous_terms, term.data <:+: (strToLower prompt).data) ∧
         ¬ (∃ term ∈ controlled_terms, term.data <:+: (strToLower prompt).data)))) ∧
    classify_prompt_risk "rollback prod now" = .Dangerous := by
  constructor
  · intro prompt
    have key_d : dangerous_terms.any
        (fun term => strContains (strToLower prompt) term) = true ↔
        ∃ term ∈ dangerous_terms, term.data <:+: (strToLower prompt).data := by
      simp [List.any_eq_true, strContains]
    have key_c : controlled_terms.any
        (fun term => strContains (strToLower prompt) term) = true ↔
        ∃ term ∈ controlled_terms, term.data <:+: (strToLower prompt).data := by
      simp [List.any_eq_true, strContains]
    by_cases hd : dangerous_terms.any
        (fun term => strContains (strToLower prompt) term) = true
    · have hD : classify_prompt_risk prompt = .Dangerous := by
        simp [classify_prompt_risk, hd]
      have hex := key_d.mp hd
      refine ⟨⟨fun _ => hex, fun _ => hD⟩, ⟨?_, ?_⟩, ⟨?_, ?_⟩⟩
      · intro hcontr; rw [hD] at hcontr; exact absurd hcontr (by decide)
      · rintro ⟨hnd, _⟩; exact absurd hex hnd
      · intro hcontr; rw [hD] at hcontr; exact absurd hcontr (by decide)
      · rintro ⟨hnd, _⟩; exact absurd hex hnd
    · have hnd : ¬ ∃ term ∈ dangerous_terms,
          term.data <:+: (strToLower prompt).data := fun hx => hd (key_d.mpr hx)
      by_cases hc : controlled_terms.any
          (fun term => strContains (strToLower prompt) term) = true
      · have hC : classify_prompt_risk prompt = .Controlled := by
          simp [classify_prompt_risk, hd, hc]
        have hex := key_c.mp hc
        refine ⟨⟨?_, ?_⟩, ⟨fun _ => ⟨hnd, hex⟩, fun _ => hC⟩, ⟨?_, ?_⟩⟩
        · intro hcontr; rw [hC] at hcontr; exact absurd hcontr (by decide)
        · rintro ⟨term, hmem, hinf⟩; exact absurd ⟨term, hmem, hinf⟩ hnd
        · intro hcontr; rw [hC] at hcontr; exact absurd hcontr (by decide)
        · rintro ⟨_, hnc⟩; exact absurd hex hnc
      · have hnc : ¬ ∃ term ∈ controlled_terms,
            term.data <:+: (strToLower prompt).data := fun hx => hc (key_c.mpr hx)
        have hS : classify_prompt_risk prompt = .Safe := by
          simp [classify_prompt_risk, hd, hc]
        refine ⟨⟨?_, ?_⟩, ⟨?_, ?_⟩, ⟨fun _ => ⟨hnd, hnc⟩, fun _ => hS⟩⟩
        · intro hcontr; rw [hS] at hcontr; exact absurd hcontr (by decide)
        · rintro ⟨term, hmem, hinf⟩; exact absurd ⟨term, hmem, hinf⟩ hnd
        · intro hcontr; rw [hS] at hcontr; exact absurd hcontr (by decide)
        · rintro ⟨_, ⟨term, hmem, hinf⟩⟩
          exact absurd ⟨term, hmem, hinf⟩ hnc
  · decide

/-- C4: publishing a sequence of payloads on a fresh session assigns the
envelope seq numbers `1, 2, …, n` (strictly increasing and dense, starting
at 1), and `last_server_seq` equals the number of envelopes published. -/
theorem publish_seq_dense_increasing (α : Type) (session : String)
    (ps : List (String × α)) :
    (publishAll session SessionPubState.init ps).published.map (·.seq) =
      List.range' 1 ps.length ∧
    last_server_seq (publishAll session SessionPubState.init ps) =
      ps.length ∧
    (publishAll session SessionPubState.init ps).published.length =
      ps.length := by
  obtain ⟨h1, h2⟩ := publish_seq_spec session SessionPubState.init ps
  refine ⟨?_, ?_, ?_⟩
  · simpa [SessionPubState.init] using h2
  · simpa [last_server_seq, SessionPubState.init] using h1
  · have := congrArg List.length h2
    simpa [SessionPubState.init] using this

/-- C10: after recording any arrival sequence into a fresh session, the
stored inbound-event history is exactly the last
`min n MAX_EVENT_HISTORY = min n 128` arrivals in arrival order; once more
than 128 events have been recorded the oldest are silently dropped. -/
theorem record_event_keeps_most_recent (ε : Type) (arrivals : List ε) :
    record_all arrivals =
      arrivals.drop (arrivals.length - MAX_EVENT_HISTORY) ∧
    (record_all arrivals).length = min arrivals.length MAX_EVENT_HISTORY := by
  have hpos : 0 < MAX_EVENT_HISTORY := by decide
  have main : ∀ l : List ε,
      record_all l = l.drop (l.length - MAX_EVENT_HISTORY) := by
    intro l
    induction l using List.reverseRecOn with
    | nil => simp [record_all]
    | append_singleton l e ih =>
      rw [record_all_concat, ih]
      unfold record_event
      have hdl : (l.drop (l.length - MAX_EVENT_HISTORY)).length =
          l.length - (l.length - MAX_EVENT_HISTORY) := List.length_drop _ _
      by_cases hM : MAX_EVENT_HISTORY ≤ l.length
      · have hcond : MAX_EVENT_HISTORY <
            (l.drop (l.length - MAX_EVENT_HISTORY) ++ [e]).length := by
          simp only [List.length_append, List.length_singleton, hdl]; omega
        rw [if_pos hcond]
        have hk : (l.drop (l.length - MAX_EVENT_HISTORY) ++ [e]).length -
            MAX_EVENT_HISTORY = 1 := by
          simp only [List.length_append, List.length_singleton, hdl]; omega
        rw [hk, List.drop_append_eq_append_drop, List.drop_drop,
          List.drop_append_eq_append_drop]
        have h1 : 1 - (l.drop (l.length - MAX_EVENT_HISTORY)).length = 0 := by
          rw [hdl]; omega
        have e1 : (l ++ [e]).length - MAX_EVENT_HISTORY =
            l.length - MAX_EVENT_HISTORY + 1 := by
          simp only [List.length_append, List.length_singleton]; omega
        have e2 : l.length - MAX_EVENT_HISTORY + 1 - l.length = 0 := by
          omega
        rw [h1, e1, e2]
      · have hcond : ¬ MAX_EVENT_HISTORY <
            (l.drop (l.length - MAX_EVENT_HISTORY) ++ [e]).length := by
          simp only [List.length_append, List.length_singleton, hdl]; omega
        rw [if_neg hcond]
        have hz : l.length - MAX_EVENT_HISTORY = 0 := by omega
        have hz' : (l ++ [e]).length - MAX_EVENT_HISTORY = 0 := by
          simp only [List.length_append, List.length_singleton]; omega
        rw [hz, hz']
        simp
  refine ⟨main arrivals, ?_⟩
  rw [main arrivals, List.length_drop]
  omega

/-- C9: converting any list of i16 samples to PCM16 bytes with
`from_i16_samples` and back with `to_i16_samples` returns `Ok` of exactly
the original samples (for any audio format), and `to_i16_samples` returns
an error iff the chunk's byte length is odd. -/
theorem audio_i16_roundtrip_and_odd_error :
    (∀ (samples : List Int) (format : AudioFormat),
      (∀ s ∈ samples, -32768 ≤ s ∧ s < 32768) →
      to_i16_samples (from_i16_samples samples format) = .ok samples) ∧
    (∀ c : AudioChunk,
      (∃ msg, to_i16_samples c = .error msg) ↔ c.data.length % 2 = 1) := by
  constructor
  · intro samples format h
    unfold to_i16_samples from_i16_samples
    rw [if_neg]
    · exact congrArg Except.ok (decode_flatten_encode samples h)
    · simp only [flatten_encode_length]
      omega
  · intro c
    unfold to_i16_samples
    split_ifs with hodd
    · constructor
      · intro _; omega
      · intro _; exact ⟨_, rfl⟩
    · constructor
      · rintro ⟨msg, hmsg⟩; exact absurd hmsg (by simp)
      · intro h1; omega

/-- Witness for C9: the round-trip evaluated at a concrete sample list and
format. -/
theorem audio_i16_roundtrip_witness :
    to_i16_samples
      (from_i16_samples [0, 1, -1, 32767, -32768] AudioFormat.pcm16_24khz) =
      .ok [0, 1, -1, 32767, -32768] :=
  audio_i16_roundtrip_and_odd_error.1 [0, 1, -1, 32767, -32768]
    AudioFormat.pcm16_24khz (by decide)

/-- C6: finish-reason ingress decoding maps each canonical string and each
numeric code 1–9 to the corresponding canonical variant, and every unknown
string and every unknown number to `Other`. -/
theorem finish_reason_ingress_normalization :
    (∀ p ∈ finish_reason_strings, finish_reason_of_ingress (.str p.1) = p.2) ∧
    (∀ p ∈ finish_reason_numbers, finish_reason_of_ingress (.num p.1) = p.2) ∧
    (∀ s : String, (∀ p ∈ finish_reason_strings, s ≠ p.1) →
      finish_reason_of_ingress (.str s) = .Other) ∧
    (∀ n : Int, (∀ p ∈ finish_reason_numbers, n ≠ p.1) →
      finish_reason_of_ingress (.num n) = .Other) := by
  refine ⟨by decide, by decide, ?_, ?_⟩
  · intro s h
    have h1 : s ≠ "STOP" := h ("STOP", .Stop) (by decide)
    have h2 : s ≠ "MAX_TOKENS" := h ("MAX_TOKENS", .MaxTokens) (by decide)
    have h3 : s ≠ "SAFETY" := h ("SAFETY", .Safety) (by decide)
    have h4 : s ≠ "RECITATION" := h ("RECITATION", .Recitation) (by decide)
    have h5 : s ≠ "OTHER" := h ("OTHER", .Other) (by decide)
    have h6 : s ≠ "BLOCKLIST" := h ("BLOCKLIST", .Blocklist) (by decide)
    have h7 : s ≠ "PROHIBITED_CONTENT" :=
      h ("PROHIBITED_CONTENT", .ProhibitedContent) (by decide)
    have h8 : s ≠ "SPII" := h ("SPII", .Spii) (by decide)
    have h9 : s ≠ "MALFORMED_FUNCTION_CALL" :=
      h ("MALFORMED_FUNCTION_CALL", .MalformedFunctionCall) (by decide)
    simp [finish_reason_of_ingress, h1, h2, h3, h4, h5, h6, h7, h8, h9]
  · intro n h
    have h1 : n ≠ 1 := h (1, .Stop) (by decide)
    have h2 : n ≠ 2 := h (2, .MaxTokens) (by decide)
    have h3 : n ≠ 3 := h (3, .Safety) (by decide)
    have h4 : n ≠ 4 := h (4, .Recitation) (by decide)
    have h5 : n ≠ 5 := h (5, .Other) (by decide)
    have h6 : n ≠ 6 := h (6, .Blocklist) (by decide)
    have h7 : n ≠ 7 := h (7, .ProhibitedContent) (by decide)
    have h8 : n ≠ 8 := h (8, .Spii) (by decide)
    have h9 : n ≠ 9 := h (9, .MalformedFunctionCall) (by decide)
    simp [finish_reason_of_ingress, h1, h2, h3, h4, h5, h6, h7, h8, h9]

/-- Witness for C6: the forward-compatible fallback at a concrete unknown
string and a concrete unknown number. -/
theorem finish_reason_fallback_witness :
    finish_reason_of_ingress (.str "SOME_FUTURE_REASON") = .Other ∧
    finish_reason_of_ingress (.num 999) = .Other :=
  ⟨finish_reason_ingress_normalization.2.2.1 "SOME_FUTURE_REASON" (by decide),
   finish_reason_ingress_normalization.2.2.2 999 (by decide)⟩

mutual

theorem schemaClean_sanitize : ∀ j : Json,
    schemaClean (sanitize_schema j) = true
  | .null => rfl
  | .bool _ => rfl
  | .num _ => rfl
  | .str _ => rfl
  | .arr es => by
    simp only [sanitize_schema, schemaClean]
    exact schemaCleanElems_sanitize es
  | .obj ms => by
    simp only [sanitize_schema, schemaClean]
    exact schemaCleanMembers_sanitize ms

theorem schemaCleanElems_sanitize : ∀ es : List Json,
    schemaCleanElems (sanitizeElems es) = true
  | [] => rfl
  | j :: js => by
    simp only [sanitizeElems, schemaCleanElems, Bool.and_eq_true]
    exact ⟨schemaClean_sanitize j, schemaCleanElems_sanitize js⟩

theorem schemaCleanMembers_sanitize : ∀ ms : List (String × Json),
    schemaCleanMembers (sanitizeMembers ms) = true
  | [] => rfl
  | (k, v) :: ms => by
    by_cases hk : bannedSchemaKeys.contains k
    · simp only [sanitizeMembers, hk, if_true]
      exact schemaCleanMembers_sanitize ms
    · simp only [sanitizeMembers, hk, if_false, schemaCleanMembers,
        Bool.and_eq_true]
      exact ⟨⟨by simp [hk], schemaClean_sanitize v⟩,
        schemaCleanMembers_sanitize ms⟩

end

mutual

theorem sanitize_of_clean : ∀ j : Json,
    schemaClean j = true → sanitize_schema j = j
  | .null, _ => rfl
  | .bool _, _ => rfl
  | .num _, _ => rfl
  | .str _, _ => rfl
  | .arr es, h => by
    simp only [schemaClean] at h
    simp only [sanitize_schema, sanitizeElems_of_clean es h]
  | .obj ms, h => by
    simp only [schemaClean] at h
    simp only [sanitize_schema, sanitizeMembers_of_clean ms h]

theorem sanitizeElems_of_clean : ∀ es : List Json,
    schemaCleanElems es = true → sanitizeElems es = es
  | [], _ => rfl
  | j :: js, h => by
    simp only [schemaCleanElems, Bool.and_eq_true] at h
    simp only [sanitizeElems, sanitize_of_clean j h.1,
      sanitizeElems_of_clean js h.2]

theorem sanitizeMembers_of_clean : ∀ ms : List (String × Json),
    schemaCleanMembers ms = true → sanitizeMembers ms = ms
  | [], _ => rfl
  | (k, v) :: ms, h => by
    simp only [schemaCleanMembers, Bool.and_eq_true] at h
    have hk : ¬ bannedSchemaKeys.contains k = true := by
      simpa using h.1.1
    simp only [sanitizeMembers, hk, if_false]
    rw [sanitize_of_clean v h.1.2, sanitizeMembers_of_clean ms h.2]
    simp

end

/-- C7: `sanitize_schema` removes the keys `$schema`, `definitions`, `$ref`
and `additionalProperties` from every object at every nesting depth
(through object values and array elements) — the result contains no such
key anywhere — and leaves values without such keys entirely unchanged; and
every tool exposed by `McpToolset::tools` carries a sanitized input schema
and, when present, a sanitized output schema. -/
theorem sanitize_schema_spec :
    (∀ j : Json, schemaClean (sanitize_schema j) = true) ∧
    (∀ j : Json, schemaClean j = true → sanitize_schema j = j) ∧
    (∀ (tool_filter : Option (String → Bool))
       (mcp_tools : List McpServerTool),
      ∀ t ∈ McpToolset.tools tool_filter mcp_tools,
        (∀ j, t.input_schema = some j → schemaClean j = true) ∧
        (∀ j, t.output_schema = some j → schemaClean j = true)) := by
  refine ⟨schemaClean_sanitize, sanitize_of_clean, ?_⟩
  intro tool_filter mcp_tools t ht
  simp only [McpToolset.tools, List.mem_filterMap] at ht
  obtain ⟨a, _, hfa⟩ := ht
  by_cases hc : tool_filter.elim true fun filter => filter a.name
  · rw [if_pos hc] at hfa
    cases hfa
    constructor
    · intro j hj
      cases hj
      exact schemaClean_sanitize _
    · intro j hj
      simp only [Option.map_eq_some'] at hj
      obtain ⟨s, _, rfl⟩ := hj
      exact schemaClean_sanitize _
  · rw [if_neg hc] at hfa
    exact absurd hfa (by simp)

/-- Witness for C7: sanitization evaluated on a concrete nested schema, the
fixed-point property at a concrete clean schema, and a concrete tool listed
through `McpToolset::tools`. -/
theorem sanitize_schema_witness :
    schemaClean (sanitize_schema (.obj
      [("$schema", .str "http"), ("type", .str "object"),
       ("properties", .obj
         [("a", .obj [("$ref", .str "#/definitions/a"),
                      ("type", .str "string")])]),
       ("items", .arr [.obj [("additionalProperties", .bool false)]])]))
      = true ∧
    sanitize_schema (.obj [("type", .str "object")]) =
      .obj [("type", .str "object")] ∧
    (∀ j, (McpTool.mk "t" "" (some (sanitize_schema
        (.obj [("$schema", .str "x")]))) none false).input_schema = some j →
      schemaClean j = true) :=
  ⟨sanitize_schema_spec.1 _,
   sanitize_schema_spec.2.1 _ (by decide),
   (sanitize_schema_spec.2.2 none [⟨"t", none, [("$schema", .str "x")], none⟩]
     (McpTool.mk "t" "" (some (sanitize_schema (.obj [("$schema", .str "x")])))
       none false)
     (List.mem_singleton_self _)).1⟩

/-- C5 (amended): `SchemaValidator::validate` returns `Pass` iff some text
part yields a JSON value — by direct parse, or else extracted from a fenced
markdown block, preferring a ```` ```json ```` fence anywhere in the text
over an earlier plain ```` ``` ```` fence — and the first such value
satisfies the configured schema; in every other case it returns `Fail`
carrying the validator's configured severity. The statement is generic in
the external parser and compiled schema. -/
theorem schema_validator_validate_spec (σ : Type) (v : SchemaValidator σ)
    (parse : String → Option Json) (content : Content) :
    (v.validate parse content = .Pass ↔
      ∃ json, extract_json parse content = some json ∧
        v.validator json = none) ∧
    (extract_json parse content = none →
      v.validate parse content =
        .Fail "Content does not contain valid JSON" v.severity) ∧
    (∀ json error, extract_json parse content = some json →
      v.validator json = some error →
      v.validate parse content =
        .Fail ("Schema validation failed: " ++ error) v.severity) ∧
    (∀ reason sev, v.validate parse content = .Fail reason sev →
      sev = v.severity) := by
  cases hex : extract_json parse content with
  | none =>
    refine ⟨?_, fun _ => by simp [SchemaValidator.validate, hex], ?_, ?_⟩
    · simp [SchemaValidator.validate, hex]
    · intro json error hj _
      exact absurd hj (by simp)
    · intro reason sev h
      simp only [SchemaValidator.validate, hex] at h
      cases h
      rfl
  | some json =>
    cases hval : v.validator json with
    | none =>
      refine ⟨?_, ?_, ?_, ?_⟩
      · simp only [SchemaValidator.validate, hex, hval]
        exact ⟨fun _ => ⟨json, rfl, hval⟩, fun _ => trivial⟩
      · intro hcontr
        exact absurd hcontr (by simp)
      · intro json' error hj hv
        cases hj
        rw [hval] at hv
        exact absurd hv (by simp)
      · intro reason sev h
        simp only [SchemaValidator.validate, hex, hval] at h
        exact absurd h (by simp)
    | some error =>
      refine ⟨?_, ?_, ?_, ?_⟩
      · simp only [SchemaValidator.validate, hex, hval]
        constructor
        · intro h
          exact absurd h (by simp)
        · rintro ⟨json', hj, hv⟩
          cases hj
          rw [hval] at hv
          exact absurd hv (by simp)
      · intro hcontr
        exact absurd hcontr (by simp)
      · intro json' error' hj hv
        cases hj
        rw [hval] at hv
        cases hv
        simp [SchemaValidator.validate, hex, hval]
      · intro reason sev h
        simp only [SchemaValidator.validate, hex, hval] at h
        cases h
        rfl

/-- C5 counterexample to the claim as stated: on a content whose text part
holds a plain fenced block with non-JSON content followed by a
```` ```json ```` block holding `{}`, the claim's reading (direct parse, or
else the first fenced block) extracts nothing — the whole text does not
parse and the first fenced block's body `"not json"` does not parse — so it
predicts `Fail`; the validator nevertheless returns `Pass`, because
`extract_json_from_markdown` prefers the ```` ```json ```` fence over the
earlier plain fence. The schema here accepts every instance. -/
theorem schema_validator_first_fence_counterexample :
    SchemaValidator.validate
      { name := "schema_validator", validator := fun _ => none,
        severity := (0 : Nat) }
      jsonParse
      { role := "model",
        parts := [.text "```\nnot json\n```\n```json\n{}\n```"] } = .Pass ∧
    jsonParse "```\nnot json\n```\n```json\n{}\n```" = none ∧
    spec_first_fenced_block "```\nnot json\n```\n```json\n{}\n```" =
      some "not json" ∧
    jsonParse "not json" = none := by
  exact ⟨rfl, rfl, rfl, rfl⟩

/-- Witness for C5: the validator evaluated at a concrete content with no
extractable JSON fails with the configured severity. -/
theorem schema_validator_validate_witness :
    SchemaValidator.validate
      { name := "schema_validator", validator := fun _ => none,
        severity := (0 : Nat) }
      jsonParse
      { role := "model", parts := [.text "This is just plain text"] } =
      .Fail "Content does not contain valid JSON" 0 :=
  (schema_validator_validate_spec Nat
    { name := "schema_validator", validator := fun _ => none,
      severity := (0 : Nat) }
    jsonParse
    { role := "model", parts := [.text "This is just plain text"] }).2.1
    (by rfl)

theorem master_prompt_result_handoff_none (env : StepEnv)
    (ctx : ShellSessionContext) (rawPrompt : String)
    (result : ShellSessionContext × List SsePayload)
    (h : master_prompt env ctx rawPrompt = some result) :
    result.1.pending_handoff = none := by
  simp only [master_prompt] at h
  by_cases he : strIsEmpty (strTrim rawPrompt) = true
  · rw [if_pos he] at h
    exact absurd h (by simp)
  · rw [if_neg he] at h
    by_cases hd :
        (build_master_plan env.route (strTrim rawPrompt)).risk = .Dangerous
    · rw [if_pos hd] at h
      cases h
      rfl
    · rw [if_neg hd] at h
      cases h
      rfl

theorem approval_decision_match (env : StepEnv) (ctx : ShellSessionContext)
    (p : PendingApproval) (action_id : String) (approved : Bool)
    (hp : ctx.pending_approval = some p) (hh : ctx.pending_handoff = none)
    (ha : p.action_id = action_id) :
    inbound_step env ctx (.ApprovalDecision action_id approved) =
      ({ ctx with
         audit_log := ctx.audit_log ++
           [AuditEntry.new action_id p.app_id p.risk
             (if approved then .Approved else .Rejected) env.ts],
         pending_approval := none,
         pending_handoff := none },
       [.TimelineEntry (approval_entry action_id approved),
        .Notification
          { level := if approved then "success" else "info",
            message := if approved then
                "Approval accepted. Execution can proceed."
              else "Approval rejected. Action blocked." },
        .Done { status := "approval_resolved" }]) := by
  simp only [inbound_step, hh]
  simp only [approval_decision_fallback, hp]
  rw [if_neg (show ¬ p.action_id ≠ action_id from fun hne => hne ha)]

theorem step_nonsuperseding (env : StepEnv) (ctx : ShellSessionContext)
    (p : PendingApproval) (ev : InboundEvent)
    (hp : ctx.pending_approval = some p) (hh : ctx.pending_handoff = none)
    (hns : NonSuperseding p ev) :
    (inbound_step env ctx ev).1.pending_approval = some p ∧
    (inbound_step env ctx ev).1.pending_handoff = none ∧
    (inbound_step env ctx ev).2.countP isDone = 0 := by
  cases ev with
  | MasterPromptSubmit prompt => exact hns.elim
  | AppFocus app_id =>
    refine ⟨hp, hh, ?_⟩
    simp [inbound_step, isDone]
  | AppCommand app_id command =>
    have hpc : parse_handoff_command app_id command = none := hns
    simp only [inbound_step, hpc]
    exact ⟨hp, hh, by simp [isDone]⟩
  | ApprovalDecision action_id approved =>
    have hne : action_id ≠ p.action_id := hns
    simp only [inbound_step, hh]
    simp only [approval_decision_fallback, hp]
    rw [if_pos (show p.action_id ≠ action_id from fun he => hne he.symm)]
    exact ⟨hp, hh, by simp [isDone]⟩
  | WorkspaceLayoutChange layout =>
    cases hpl : parse_workspace_layout layout with
    | none =>
      simp only [inbound_step, hpl]
      exact ⟨hp, hh, by simp [isDone]⟩
    | some next_layout =>
      simp only [inbound_step, hpl]
      exact ⟨hp, hh, by simp [isDone]⟩

theorem trace_nonsuperseding (p : PendingApproval) :
    ∀ (steps : List (StepEnv × InboundEvent)) (ctx : ShellSessionContext),
      ctx.pending_approval = some p → ctx.pending_handoff = none →
      (∀ s ∈ steps, NonSuperseding p s.2) →
      (inbound_trace ctx steps).1.pending_approval = some p ∧
      (inbound_trace ctx steps).1.pending_handoff = none ∧
      (inbound_trace ctx steps).2.countP isDone = 0 := by
  intro steps
  induction steps with
  | nil =>
    intro ctx hp hh _
    exact ⟨hp, hh, rfl⟩
  | cons s rest ih =>
    intro ctx hp hh hall
    obtain ⟨env, ev⟩ := s
    have h1 := step_nonsuperseding env ctx p ev hp hh
      (hall _ (List.mem_cons_self _ _))
    have h2 := ih (inbound_step env ctx ev).1 h1.1 h1.2.1
      (fun x hx => hall x (List.mem_cons_of_mem _ hx))
    rcases hstep : inbound_step env ctx ev with ⟨ctx1, out1⟩
    rcases htrace : inbound_trace ctx1 rest with ⟨ctx2, out2⟩
    rw [hstep] at h1 h2
    rw [htrace] at h2
    simp only [inbound_trace, hstep, htrace]
    refine ⟨h2.1, h2.2.1, ?_⟩
    rw [List.countP_append, h1.2.2, h2.2.2]

theorem fallback_preserves_consistency (env : StepEnv)
    (ctx : ShellSessionContext) (action_id : String) (approved : Bool)
    (hcons : HandoffConsistent ctx) :
    HandoffConsistent
      (approval_decision_fallback env ctx action_id approved).1 := by
  cases hp : ctx.pending_approval with
  | none =>
    simp only [approval_decision_fallback, hp]
    exact hcons
  | some pending =>
    by_cases hne : pending.action_id ≠ action_id
    · simp only [approval_decision_fallback, hp, if_pos hne]
      exact hcons
    · simp only [approval_decision_fallback, hp, if_neg hne]
      intro ph h
      exact absurd h (by simp)

/-- C8: in every reachable session context (the initial context is
consistent and every inbound step preserves consistency of the pending
handoff with the pending approval), processing an `ApprovalDecision` whose
action id differs from the pending approval's publishes exactly one `Error`
payload, with code `approval_mismatch`, and leaves the session context
entirely unchanged — the pending approval stays set, the pending handoff is
untouched, and no audit entry is appended. -/
theorem approval_mismatch_spec :
    HandoffConsistent ShellSessionContext.initial ∧
    (∀ (env : StepEnv) (ctx : ShellSessionContext) (ev : InboundEvent),
      HandoffConsistent ctx → HandoffConsistent (inbound_step env ctx ev).1) ∧
    (∀ (env : StepEnv) (ctx : ShellSessionContext) (action_id : String)
        (approved : Bool) (p : PendingApproval),
      HandoffConsistent ctx → ctx.pending_approval = some p →
      p.action_id ≠ action_id →
      inbound_step env ctx (.ApprovalDecision action_id approved) =
        (ctx,
         [.Error { code := "approval_mismatch",
                   message := "Action ID does not match pending approval" }])) := by
  refine ⟨?_, ?_, ?_⟩
  · intro ph h
    exact absurd h (by simp [ShellSessionContext.initial])
  · intro env ctx ev hcons
    cases ev with
    | MasterPromptSubmit prompt =>
      cases hmp : master_prompt env ctx prompt with
      | none => simpa only [inbound_step, hmp] using hcons
      | some result =>
        have hnone :=
          master_prompt_result_handoff_none env ctx prompt result hmp
        simp only [inbound_step, hmp]
        intro ph h
        rw [hnone] at h
        exact absurd h (by simp)
    | AppFocus app_id =>
      simp only [inbound_step]
      intro ph h
      exact hcons ph h
    | AppCommand app_id command =>
      cases hpc : parse_handoff_command app_id command with
      | none =>
        simp only [inbound_step, hpc]
        exact hcons
      | some handoff =>
        simp only [inbound_step, hpc]
        intro ph h
        cases h
        exact ⟨_, rfl, rfl⟩
    | ApprovalDecision action_id approved =>
      cases hph : ctx.pending_handoff with
      | none =>
        simp only [inbound_step, hph]
        exact fallback_preserves_consistency env ctx action_id approved hcons
      | some ph0 =>
        by_cases hid : ph0.handoff_id = action_id
        · simp only [inbound_step, hph, if_pos hid]
          intro ph h
          simp only [handoff_resolve] at h
          exact absurd h (by simp)
        · simp only [inbound_step, hph, if_neg hid]
          exact fallback_preserves_consistency env ctx action_id approved hcons
    | WorkspaceLayoutChange layout =>
      cases hpl : parse_workspace_layout layout with
      | none =>
        simp only [inbound_step, hpl]
        exact hcons
      | some next_layout =>
        simp only [inbound_step, hpl]
        exact hcons
  · intro env ctx action_id approved p hcons hp hne
    cases hph : ctx.pending_handoff with
    | none =>
      simp only [inbound_step, hph]
      simp only [approval_decision_fallback, hp]
      rw [if_pos hne]
    | some ph =>
      obtain ⟨p', hp', hid⟩ := hcons ph hph
      rw [hp] at hp'
      cases Option.some.inj hp'
      have hne2 : ¬ ph.handoff_id = action_id := fun he => hne (hid.trans he)
      simp only [inbound_step, hph, if_neg hne2]
      simp only [approval_decision_fallback, hp]
      rw [if_pos hne]

/-- Witness for C8: a concrete session with a pending Dangerous approval
`a1`, receiving a decision for the non-matching action id `a2`. -/
theorem approval_mismatch_witness :
    inbound_step
      { route := fun _ =>
          { selected_apps := [], risk := .Safe, rationale := "" },
        exec := fun _ _ => { accepted := true, summary := "" },
        freshId := "u1", ts := "t1" }
      { pending_approval := some
          { action_id := "a1", app_id := "ops-center", title := "t",
            rationale := "r", risk := .Dangerous } }
      (.ApprovalDecision "a2" true) =
      ({ pending_approval := some
           { action_id := "a1", app_id := "ops-center", title := "t",
             rationale := "r", risk := .Dangerous } },
       [.Error { code := "approval_mismatch",
                 message := "Action ID does not match pending approval" }]) :=
  approval_mismatch_spec.2.2 _ _ "a2" true _
    (fun _ h => absurd h (by simp)) rfl (by decide)

/-- C3 counterexample to the claim as stated: at a session whose pending
approval guards the Dangerous action `a1`, processing
`ApprovalDecision{action_id: "a1", approved: false}` publishes exactly a
timeline entry, a notification, and a done marker — no payload kind
resembling a `FunctionResponse` exists in the shell protocol and none is
published, so no tool call is turned into `FunctionResponse{error:
"rejected"}`. -/
theorem approval_rejection_counterexample :
    ((inbound_step
        { route := fun _ =>
            { selected_apps := [], risk := .Safe, rationale := "" },
          exec := fun _ _ => { accepted := true, summary := "" },
          freshId := "u1", ts := "t1" }
        { active_apps := ["ops-center"],
          last_prompt := some "rollback prod now",
          pending_approval := some
            { action_id := "a1", app_id := "ops-center",
              title := "Dangerous action requires approval",
              rationale := "Master Prompt implies high-impact operation.",
              risk := .Dangerous } }
        (.ApprovalDecision "a1" false)).2.map SsePayload.event_name =
      ["timeline_entry", "notification", "done"]) := by
  rfl

/-- C3 (amended): processing an `ApprovalDecision` matching the pending
approval records an `Approved`/`Rejected` audit entry, clears the pending
approval and handoff, and publishes a timeline entry, a notification
(`"Approval rejected. Action blocked."` on rejection, `"Approval accepted.
Execution can proceed."` on approval) and one `Done` event with status
`"approval_resolved"`; the session continues. No `FunctionResponse` is
produced: the shell suspends no tool call and its protocol has no such
event. -/
theorem approval_decision_resolution (env : StepEnv)
    (ctx : ShellSessionContext) (p : PendingApproval) (action_id : String)
    (hp : ctx.pending_approval = some p) (hh : ctx.pending_handoff = none)
    (ha : p.action_id = action_id) :
    (inbound_step env ctx (.ApprovalDecision action_id false) =
      ({ ctx with
         audit_log := ctx.audit_log ++
           [AuditEntry.new action_id p.app_id p.risk .Rejected env.ts],
         pending_approval := none,
         pending_handoff := none },
       [.TimelineEntry (approval_entry action_id false),
        .Notification
          { level := "info",
            message := "Approval rejected. Action blocked." },
        .Done { status := "approval_resolved" }])) ∧
    (inbound_step env ctx (.ApprovalDecision action_id true) =
      ({ ctx with
         audit_log := ctx.audit_log ++
           [AuditEntry.new action_id p.app_id p.risk .Approved env.ts],
         pending_approval := none,
         pending_handoff := none },
       [.TimelineEntry (approval_entry action_id true),
        .Notification
          { level := "success",
            message := "Approval accepted. Execution can proceed." },
        .Done { status := "approval_resolved" }])) :=
  ⟨approval_decision_match env ctx p action_id false hp hh ha,
   approval_decision_match env ctx p action_id true hp hh ha⟩

/-- Witness for C3: the rejection path evaluated at a concrete pending
approval. -/
theorem approval_decision_resolution_witness :
    inbound_step
      { route := fun _ =>
          { selected_apps := [], risk := .Safe, rationale := "" },
        exec := fun _ _ => { accepted := true, summary := "" },
        freshId := "u1", ts := "t1" }
      { pending_approval := some
          { action_id := "a1", app_id := "ops-center", title := "t",
            rationale := "r", risk := .Dangerous } }
      (.ApprovalDecision "a1" false) =
      ({ pending_approval := none,
         audit_log :=
           [AuditEntry.new "a1" "ops-center" .Dangerous .Rejected "t1"] },
       [.TimelineEntry (approval_entry "a1" false),
        .Notification
          { level := "info",
            message := "Approval rejected. Action blocked." },
        .Done { status := "approval_resolved" }]) :=
  (approval_decision_resolution _ _
    { action_id := "a1", app_id := "ops-center", title := "t",
      rationale := "r", risk := .Dangerous }
    "a1" rfl rfl rfl).1

/-- C1: handling a non-blank master prompt whose plan risk is `Dangerous`
publishes exactly one `ApprovalRequired` event and no `Done` event, records
the pending approval and a `Proposed` audit entry, and — as long as the
subsequent inbound events neither supersede the pending approval (a new
prompt or handoff command replaces it) nor decide it — still publishes no
`Done` and keeps the approval pending, while an `ApprovalDecision` matching
the pending action id publishes exactly one `Done`; a prompt whose plan
risk is `Safe` or `Controlled` publishes no `ApprovalRequired` and exactly
one `Done` with status `"completed"`. -/
theorem master_prompt_approval_gate (env : StepEnv)
    (ctx : ShellSessionContext) (rawPrompt : String)
    (hne : strIsEmpty (strTrim rawPrompt) = false) :
    ∃ ctx' evs, master_prompt env ctx rawPrompt = some (ctx', evs) ∧
      ((env.route (strTrim rawPrompt)).risk = .Dangerous →
        evs.countP isApprovalRequired = 1 ∧
        evs.countP isDone = 0 ∧
        ∃ pending, ctx'.pending_approval = some pending ∧
          pending.risk = .Dangerous ∧
          ctx'.pending_handoff = none ∧
          ctx'.audit_log = ctx.audit_log ++
            [AuditEntry.new pending.action_id pending.app_id pending.risk
              .Proposed env.ts] ∧
          (∀ steps : List (StepEnv × InboundEvent),
            (∀ s ∈ steps, NonSuperseding pending s.2) →
            (inbound_trace ctx' steps).2.countP isDone = 0 ∧
            (inbound_trace ctx' steps).1.pending_approval = some pending) ∧
          (∀ (env2 : StepEnv) (approved : Bool),
            (inbound_step env2 ctx'
              (.ApprovalDecision pending.action_id approved)).2.countP
                isDone = 1)) ∧
      ((env.route (strTrim rawPrompt)).risk ≠ .Dangerous →
        evs.countP isApprovalRequired = 0 ∧
        evs.filter isDone = [.Done { status := "completed" }]) := by
  have hcond : ¬ strIsEmpty (strTrim rawPrompt) = true := by simp [hne]
  cases hmp : master_prompt env ctx rawPrompt with
  | none =>
    exfalso
    simp only [master_prompt, if_neg hcond] at hmp
    split at hmp <;> exact absurd hmp (by simp)
  | some result =>
    obtain ⟨ctx', evs⟩ := result
    refine ⟨ctx', evs, rfl, ?_, ?_⟩
    · intro hrisk
      have hrisk' :
          (build_master_plan env.route (strTrim rawPrompt)).risk =
            .Dangerous := hrisk
      simp only [master_prompt, if_neg hcond, if_pos hrisk'] at hmp
      injection hmp with hmp2
      injection hmp2 with hc he
      subst hc
      subst he
      refine ⟨by simp [isApprovalRequired], by simp [isDone], ?_⟩
      refine ⟨_, rfl, hrisk, rfl, rfl,
        fun steps hsteps =>
          ⟨(trace_nonsuperseding _ steps _ rfl rfl hsteps).2.2,
           (trace_nonsuperseding _ steps _ rfl rfl hsteps).1⟩, ?_⟩
      intro env2 approved
      rw [approval_decision_match env2 _ _ _ approved rfl rfl rfl]
      simp [isDone]
    · intro hrisk
      have hrisk' :
          ¬ (build_master_plan env.route (strTrim rawPrompt)).risk =
            .Dangerous := hrisk
      simp only [master_prompt, if_neg hcond, if_neg hrisk'] at hmp
      injection hmp with hmp2
      injection hmp2 with hc he
      subst hc
      subst he
      exact ⟨by simp [isApprovalRequired], by simp [isDone]⟩

/-- Witness for C1: the dangerous prompt `"rollback prod now"` routed with
risk `Dangerous` yields exactly one `ApprovalRequired` and no `Done`. -/
theorem master_prompt_approval_gate_witness :
    ((master_prompt
        { route := fun _ =>
            { selected_apps := ["ops-center"], risk := .Dangerous,
              rationale := "keyword match" },
          exec := fun _ _ => { accepted := true, summary := "" },
          freshId := "u1", ts := "t1" }
        ShellSessionContext.initial "rollback prod now").map
      fun r => (r.2.countP isApprovalRequired, r.2.countP isDone)) =
      some (1, 0) := by
  obtain ⟨ctx', evs, hmp, hD, _⟩ :=
    master_prompt_approval_gate
      { route := fun _ =>
          { selected_apps := ["ops-center"], risk := .Dangerous,
            rationale := "keyword match" },
        exec := fun _ _ => { accepted := true, summary := "" },
        freshId := "u1", ts := "t1" }
      ShellSessionContext.initial "rollback prod now" (by decide)
  obtain ⟨h1, h2, _⟩ := hD rfl
  rw [hmp]
  simp [h1, h2]

end Adk
